import Mathlib

/-!
Verification of the clause extraction and risk-classification pipeline of the
Contract-Analysis-Risk-Assessment-Bot repository.

The Python source is shallowly embedded: contract text is a list of
characters, the five structural split regexes of
`NLPProcessor.extract_clauses` become explicit matchers, and the risk
patterns of `RiskAnalyzer` (literal fragments separated by `.*`, where `.`
does not match a newline) become lists of literal character sequences
searched with gap semantics.
-/

abbrev Chars := List Char

/-- Python whitespace characters recognised by `str.strip` and `\s`
(ASCII range, which covers all inputs in this development). -/
def isPySpace (c : Char) : Bool :=
  c = ' ' || c = '\t' || c = '\n' || c = '\r' || c = '\x0b' || c = '\x0c'

def isDigitChar (c : Char) : Bool :=
  '0' ≤ c && c ≤ '9'

def isLowerAZ (c : Char) : Bool :=
  'a' ≤ c && c ≤ 'z'

/-- Remove trailing characters satisfying `isPySpace`. -/
def dropTrailingSpace (l : Chars) : Chars :=
  (l.reverse.dropWhile isPySpace).reverse

/-- Embedding of Python `str.strip()`. -/
def pyStrip (l : Chars) : Chars :=
  dropTrailingSpace (l.dropWhile isPySpace)

/-- Embedding of Python `str.lower()` on the ASCII inputs used here. -/
def lowerChars (l : Chars) : Chars :=
  l.map Char.toLower

/-- If `t` starts with the literal `lit`, return the remainder of `t`. -/
def litConsume : Chars → Chars → Option Chars
  | [], t => some t
  | _ :: _, [] => none
  | a :: as, b :: bs => if a = b then litConsume as bs else none

/-- Fueled matcher for a sequence of literals separated by `.*` gaps,
starting right after a previously matched literal: each gap may skip any
characters except `'\n'` (Python `.` does not match a newline).  The fuel
only bounds the recursion; `litConsume` shortens `lits ++ t` at every
step, so fuel `lits.length + t.length` is always sufficient. -/
def seqStep : List Chars → Chars → Nat → Bool
  | [], _, _ => true
  | _ :: _, _, 0 => false
  | lit :: lits, t, f + 1 =>
    (match litConsume lit t with
     | some r => seqStep lits r f
     | none => false) ||
    (match t with
     | [] => false
     | c :: cs => decide (c ≠ '\n') && seqStep (lit :: lits) cs f)

/-- Does the `.*`-separated literal sequence `pat` match starting exactly
at the head of `t`? -/
def matchesAt : List Chars → Chars → Bool
  | [], _ => true
  | lit :: lits, t =>
    match litConsume lit t with
    | some r => seqStep lits r (lits.length + r.length + lits.length)
    | none => false

/-- Embedding of `re.search` for the risk patterns: the pattern is a list
of literal fragments that were separated by `.*` in the source regex; the
match may start at any position of `t`. -/
def reSearch (pat : List Chars) : Chars → Bool
  | [] => matchesAt pat []
  | c :: cs => matchesAt pat (c :: cs) || reSearch pat cs

/-- Embedding of Python `sub in s` (substring containment). -/
def containsSub (pat : Chars) : Chars → Bool
  | [] => (litConsume pat []).isSome
  | c :: cs => (litConsume pat (c :: cs)).isSome || containsSub pat cs

/-! ### The five structural split patterns of `extract_clauses` -/

/-- Matcher for the regex `\n\d+\.\s` ("1. Clause").  Returns the input
remainder after the match when the match starts at the head. -/
def matchNumbered : Chars → Option Chars
  | '\n' :: rest =>
    match rest.dropWhile isDigitChar, rest.takeWhile isDigitChar with
    | _, [] => none
    | '.' :: c :: r2, _ :: _ => if isPySpace c then some r2 else none
    | _, _ => none
  | _ => none

/-- Matcher for the regex `\n\([a-z]\)\s` ("(a) Sub-clause"). -/
def matchLettered : Chars → Option Chars
  | '\n' :: '(' :: c :: ')' :: d :: r =>
    if isLowerAZ c && isPySpace d then some r else none
  | _ => none

/-- Matcher for `\n` followed by a keyword, then `\s+\d+`
(used for `\nSECTION\s+\d+` and `\nARTICLE\s+\d+`). -/
def matchKeywordNum (kw : Chars) : Chars → Option Chars
  | '\n' :: rest =>
    match litConsume kw rest with
    | some r1 =>
      match r1.dropWhile isPySpace, r1.takeWhile isPySpace with
      | _, [] => none
      | r2, _ :: _ =>
        match r2.dropWhile isDigitChar, r2.takeWhile isDigitChar with
        | _, [] => none
        | r3, _ :: _ => some r3
    | none => none
  | _ => none

def sectionKw : Chars := "SECTION".data

def articleKw : Chars := "ARTICLE".data

/-- Matcher for the regex `\n\d+\.\d+\.` ("1.1. Numbering"). -/
def matchNested : Chars → Option Chars
  | '\n' :: rest =>
    match rest.dropWhile isDigitChar, rest.takeWhile isDigitChar with
    | _, [] => none
    | '.' :: r2, _ :: _ =>
      match r2.dropWhile isDigitChar, r2.takeWhile isDigitChar with
      | _, [] => none
      | '.' :: r3, _ :: _ => some r3
      | _, _ => none
    | _, _ => none
  | _ => none

/-- The five clause split patterns, in the order listed in the source. -/
def clausePatterns : List (Chars → Option Chars) :=
  [matchNumbered, matchLettered, matchKeywordNum sectionKw,
   matchKeywordNum articleKw, matchNested]

/-- Fueled worker for `re.split`: scan left to right, cutting at every
match.  Every matcher in `clausePatterns` consumes at least one character
on success, so fuel equal to the text length is always sufficient. -/
def reSplitGo (m : Chars → Option Chars) : Nat → Chars → List Chars
  | _, [] => [[]]
  | 0, cs => [cs]
  | f + 1, c :: cs =>
    match m (c :: cs) with
    | some rest => [] :: reSplitGo m f rest
    | none =>
      match reSplitGo m f cs with
      | [] => [[c]]
      | g :: gs => (c :: g) :: gs

/-- Embedding of `re.split(pattern, text)`. -/
def reSplit (m : Chars → Option Chars) (t : Chars) : List Chars :=
  reSplitGo m t.length t

/-! ### Clause extraction (`NLPProcessor.extract_clauses`) -/

/-- The clean-up loop of `extract_clauses`: strip every fragment and keep
those whose stripped length is strictly greater than 50. -/
def cleanClauses (clauses : List Chars) : List Chars :=
  (clauses.map pyStrip).filter (fun c => 50 < c.length)

/-- The pattern loop of `extract_clauses`: for each pattern in order,
split; when the split produced more than one piece, clean the pieces and
return them if more than 3 survive; otherwise try the next pattern. -/
def tryPatternsLoop : List (Chars → Option Chars) → Chars → Option (List Chars)
  | [], _ => none
  | p :: ps, text =>
    if 1 < (reSplit p text).length then
      if 3 < (cleanClauses (reSplit p text)).length then
        some (cleanClauses (reSplit p text))
      else tryPatternsLoop ps text
    else tryPatternsLoop ps text

/-- Python `sentence.endswith((':', ';'))`. -/
def endsColonSemi (s : Chars) : Bool :=
  match s.getLast? with
  | some ':' => true
  | some ';' => true
  | _ => false

/-- Python `' '.join(parts)`. -/
def joinSpace : List Chars → Chars
  | [] => []
  | [s] => s
  | s :: t :: rest => s ++ ' ' :: joinSpace (t :: rest)

/-- The sentence-grouping fallback loop of `extract_clauses`: accumulate
sentences into `cur`; after appending a sentence, emit the group when it
holds at least 3 sentences or the sentence ends with `':'` or `';'`;
finally emit any non-empty trailing group. -/
def groupGo (cur : List Chars) : List Chars → List Chars
  | [] => if cur.isEmpty then [] else [joinSpace cur]
  | s :: rest =>
    if 3 ≤ (cur ++ [s]).length ∨ endsColonSemi s = true then
      joinSpace (cur ++ [s]) :: groupGo [] rest
    else
      groupGo (cur ++ [s]) rest

def groupSentences (sents : List Chars) : List Chars :=
  groupGo [] sents

/-- Embedding of `NLPProcessor.extract_clauses`.  The sentence tokenizer
(`nltk.sent_tokenize`) is an external library call, passed in as `tok`. -/
def extract_clauses (tok : Chars → List Chars) (text : Chars) : List Chars :=
  match tryPatternsLoop clausePatterns text with
  | some cs => cs
  | none => groupSentences (tok text)

/-! ### Spec-level descriptions of segmentation, for refinement claims -/

/-- Stated from the spec wording: a pattern is accepted exactly when,
after splitting on every occurrence, trimming each fragment and
discarding fragments of trimmed length at most 50, strictly more than 3
fragments survive; the accepted result is those surviving fragments. -/
def acceptPattern (m : Chars → Option Chars) (text : Chars) : Option (List Chars) :=
  if 3 < (cleanClauses (reSplit m text)).length then
    some (cleanClauses (reSplit m text))
  else none

/-- Stated from the spec wording: take sentences into the current group
until the group reaches `cap` sentences or the sentence just added ends
with `':'` or `';'`; return the group and the remaining sentences. -/
def takeGroup3 : Nat → List Chars → List Chars × List Chars
  | _, [] => ([], [])
  | 0, rest => ([], rest)
  | n + 1, s :: rest =>
    if endsColonSemi s = true ∨ n = 0 then ([s], rest)
    else ((s :: (takeGroup3 n rest).1), (takeGroup3 n rest).2)

/-- Fueled chopper: partition the sentence list into the consecutive
groups the spec describes (close at 3 sentences or at `':'`/`';'`,
trailing group kept). -/
def chopGo : Nat → List Chars → List (List Chars)
  | _, [] => []
  | 0, sents => [sents]
  | f + 1, s :: rest =>
    (takeGroup3 3 (s :: rest)).1 :: chopGo f (takeGroup3 3 (s :: rest)).2

def chopGroups (sents : List Chars) : List (List Chars) :=
  chopGo sents.length sents

/-! ### Risk analyzer (`RiskAnalyzer`) -/

/-- The `risk_patterns` dictionary of `RiskAnalyzer.__init__`: every regex
is a list of literal fragments that were separated by `.*`. -/
structure RiskPatterns where
  high_risk : List (List Chars)
  medium_risk : List (List Chars)
  low_risk : List (List Chars)

def hrUnilateral : List Chars := ["unilateral termination".data]
def hrExclusive : List Chars := ["exclusive jurisdiction".data]
def hrIndemnify : List Chars := ["indemnify".data, "all losses".data]
def hrPerpetual : List Chars := ["perpetual license".data]
def hrIrrevocable : List Chars := ["irrevocable".data, "right".data]
def hrAutoRenew : List Chars := ["automatic renewal".data]
def hrLiquidated : List Chars := ["liquidated damages".data, "excessive".data]
def hrWithoutCause : List Chars := ["without cause".data]

def mrConfIndef : List Chars := ["confidentiality".data, "indefinite".data]
def mrNonCompete : List Chars := ["non-compete".data, "2 years".data]
def mrArbitration : List Chars := ["arbitration".data, "company".data, "venue".data]
def mrForceMajeure : List Chars := ["force majeure".data, "broad".data]

def lrMutual : List Chars := ["mutual agreement".data]
def lrNotice : List Chars := ["reasonable".data, "notice".data]
def lrGoodFaith : List Chars := ["good faith".data]
def lrProRata : List Chars := ["pro rata".data]

def defaultRiskPatterns : RiskPatterns :=
  { high_risk := [hrUnilateral, hrExclusive, hrIndemnify, hrPerpetual,
                  hrIrrevocable, hrAutoRenew, hrLiquidated, hrWithoutCause],
    medium_risk := [mrConfIndef, mrNonCompete, mrArbitration, mrForceMajeure],
    low_risk := [lrMutual, lrNotice, lrGoodFaith, lrProRata] }

/-- The first-match loop of `assess_clause_risk` over one pattern list. -/
def anyMatch : List (List Chars) → Chars → Bool
  | [], _ => false
  | p :: ps, t => if reSearch p t then true else anyMatch ps t

/-- `RiskAnalyzer.assess_clause_risk`, parameterized by the pattern set
(the source reads only the `high_risk` and `medium_risk` entries). -/
def assessWith (rp : RiskPatterns) (clause : Chars) : String :=
  if anyMatch rp.high_risk (lowerChars clause) then "High"
  else if anyMatch rp.medium_risk (lowerChars clause) then "Medium"
  else "Low"

def assess_clause_risk (clause : Chars) : String :=
  assessWith defaultRiskPatterns clause

def kwPenalty : List Chars :=
  ["penalty".data, "liquidated damages".data, "fine".data, "forfeit".data]
def kwIndemnity : List Chars :=
  ["indemnify".data, "hold harmless".data, "defend".data]
def kwTermination : List Chars :=
  ["terminate".data, "cancel".data, "expire".data, "renewal".data]
def kwJurisdiction : List Chars :=
  ["jurisdiction".data, "venue".data, "governing law".data]
def kwIP : List Chars :=
  ["intellectual property".data, "copyright".data, "patent".data, "trade secret".data]
def kwConfidentiality : List Chars :=
  ["confidential".data, "non-disclosure".data, "proprietary".data]

/-- The `risk_categories` dictionary of `RiskAnalyzer.__init__`, in its
declaration order (Python dicts preserve insertion order). -/
def risk_categories : List (String × List Chars) :=
  [("Penalty Clauses", kwPenalty), ("Indemnity", kwIndemnity),
   ("Termination", kwTermination), ("Jurisdiction", kwJurisdiction),
   ("IP Rights", kwIP), ("Confidentiality", kwConfidentiality)]

/-- Does some keyword of the category entry occur in the (lowered)
clause text? -/
def catMatches (entry : String × List Chars) (l : Chars) : Bool :=
  entry.2.any (fun k => containsSub k l)

/-- The nested loops of `RiskAnalyzer.get_risk_category`: return the
first category one of whose keywords occurs in the lowered text. -/
def categoryLoop : List (String × List Chars) → Chars → String
  | [], _ => "General"
  | entry :: rest, l =>
    if catMatches entry l then entry.1 else categoryLoop rest l

def get_risk_category (clause : Chars) : String :=
  categoryLoop risk_categories (lowerChars clause)

/-- The `risk_scores` lookup of `calculate_overall_risk`:
`{"High": 3, "Medium": 2, "Low": 1}.get(level, 1)`. -/
def riskScore (level : String) : Nat :=
  if level = "High" then 3 else if level = "Medium" then 2 else 1

def totalScore (levels : List String) : Nat :=
  (levels.map riskScore).sum

/-- `avg_score = total_score / len(results) if results else 1`, in exact
arithmetic. -/
def avgScore (levels : List String) : ℚ :=
  if levels.isEmpty then 1 else (totalScore levels : ℚ) / (levels.length : ℚ)

/-- Embedding of `RiskAnalyzer.calculate_overall_risk`, applied to the
sequence of per-clause risk-level strings. -/
def calculate_overall_risk (levels : List String) : String :=
  if 5 / 2 ≤ avgScore levels then "High Risk"
  else if 3 / 2 ≤ avgScore levels then "Medium Risk"
  else "Low Risk"

/-! ### Explanation / suggestion provider (`explain_clause`, `suggest_alternative`) -/

/-- Outcome of one chat-completion call: either the returned message
content, or the name of the raised exception type. -/
inductive ProviderResult where
  | ok (content : Chars)
  | exn (errName : Chars)

def authToken : Chars := "AuthenticationError".data
def rateToken : Chars := "RateLimitError".data

def notCfgExplainMsg : Chars :=
  "⚠️ OpenAI API not configured. Set OPENAI_API_KEY environment variable to enable AI explanations.".data
def notCfgSuggestMsg : Chars :=
  "⚠️ OpenAI API not configured. Set OPENAI_API_KEY environment variable to enable suggestions.".data
def authFailMsg : Chars :=
  "⚠️ OpenAI authentication failed. Check your OPENAI_API_KEY is valid.".data
def rateLimitMsg : Chars :=
  "⚠️ OpenAI rate limit exceeded. Please try again later.".data
def otherExplainPre : Chars := "⚠️ Unable to generate explanation: ".data
def otherSuggestPre : Chars := "⚠️ Suggestions unavailable: ".data
def otherExplainMsg (errName : Chars) : Chars := otherExplainPre ++ errName
def otherSuggestMsg (errName : Chars) : Chars := otherSuggestPre ++ errName

/-- Embedding of `RiskAnalyzer.explain_clause`: `hasClient` models
`HAS_OPENAI and self.client`; `call` models the single chat-completion
request for the clause. -/
def explain_clause (hasClient : Bool) (call : Chars → ProviderResult)
    (clause : Chars) : Chars :=
  if !hasClient then notCfgExplainMsg
  else
    match call clause with
    | ProviderResult.ok content => pyStrip content
    | ProviderResult.exn errName =>
      if containsSub authToken errName then authFailMsg
      else if containsSub rateToken errName then rateLimitMsg
      else otherExplainMsg errName

/-- Embedding of `RiskAnalyzer.suggest_alternative`. -/
def suggest_alternative (hasClient : Bool) (call : Chars → ProviderResult)
    (clause : Chars) : Chars :=
  if !hasClient then notCfgSuggestMsg
  else
    match call clause with
    | ProviderResult.ok content => pyStrip content
    | ProviderResult.exn errName =>
      if containsSub authToken errName then authFailMsg
      else if containsSub rateToken errName then rateLimitMsg
      else otherSuggestMsg errName

/-! ### The results loop of `app.py` -/

/-- One entry of the `results` list built by the analysis loop in
`app.py` (the keys of the Python dict, in order). -/
structure ClauseRecord where
  clauseNum : Nat
  text : Chars
  riskLevel : String
  riskCategory : String
  explanation : Chars
  suggestion : Chars
deriving DecidableEq

def dotsSuffix : Chars := "...".data

/-- The body of the loop `for i, clause in enumerate(clauses)` in
`app.py`, producing the record for clause `clause` at 0-based index `i`. -/
def mkClauseRecord (explain suggest : Chars → Chars) (i : Nat)
    (clause : Chars) : ClauseRecord :=
  { clauseNum := i + 1,
    text := clause.take 100 ++ dotsSuffix,
    riskLevel := assess_clause_risk clause,
    riskCategory := get_risk_category clause,
    explanation := explain clause,
    suggestion := suggest clause }

def buildGo (explain suggest : Chars → Chars) : Nat → List Chars → List ClauseRecord
  | _, [] => []
  | i, c :: cs =>
    mkClauseRecord explain suggest i c :: buildGo explain suggest (i + 1) cs

/-- The `results` list of `app.py`: one record per clause, enumerated
from 0, with per-clause explanation and suggestion obtained from the
provider wrappers. -/
def buildResults (explain suggest : Chars → Chars) (clauses : List Chars) :
    List ClauseRecord :=
  buildGo explain suggest 0 clauses

/-! ### Spec-level first-accepted-pattern description -/

/-- Stated from the spec wording: try the patterns in order and return
the first accepted result. -/
def firstAccepted : List (Chars → Option Chars) → Chars → Option (List Chars)
  | [], _ => none
  | p :: ps, text =>
    match acceptPattern p text with
    | some r => some r
    | none => firstAccepted ps text

/-! ### Helper lemmas about stripping -/

lemma dropTrailingSpace_eq_rdropWhile (l : Chars) :
    dropTrailingSpace l = l.rdropWhile isPySpace := rfl

lemma cleanClauses_length_le (l : List Chars) :
    (cleanClauses l).length ≤ l.length := by
  calc (cleanClauses l).length ≤ (l.map pyStrip).length :=
        List.length_filter_le _ _
    _ = l.length := List.length_map _ _

lemma mem_cleanClauses {c : Chars} {l : List Chars} (h : c ∈ cleanClauses l) :
    50 < c.length ∧ ∃ c₀ ∈ l, c = pyStrip c₀ := by
  unfold cleanClauses at h
  rcases List.mem_filter.mp h with ⟨hmem, hlen⟩
  rcases List.mem_map.mp hmem with ⟨c₀, hc₀, rfl⟩
  exact ⟨by simpa using hlen, c₀, hc₀, rfl⟩

lemma pyStrip_idem (l : Chars) : pyStrip (pyStrip l) = pyStrip l := by
  unfold pyStrip
  rw [dropTrailingSpace_eq_rdropWhile, dropTrailingSpace_eq_rdropWhile]
  set m := l.dropWhile isPySpace with hm
  have hdrop : (m.rdropWhile isPySpace).dropWhile isPySpace
      = m.rdropWhile isPySpace := by
    rw [List.dropWhile_eq_self_iff]
    intro hl
    rcases List.rdropWhile_prefix isPySpace m with ⟨t, ht⟩
    have hm_self : m.dropWhile isPySpace = m := by
      rw [hm]; exact List.dropWhile_idempotent isPySpace l
    have h0m : 0 < m.length := by
      have := List.IsPrefix.length_le ⟨t, ht⟩
      omega
    have h01 : (m.rdropWhile isPySpace)[0]? = m[0]? := by
      conv_rhs => rw [← ht]
      exact (List.getElem?_append_left hl).symm
    have hget : (m.rdropWhile isPySpace).get ⟨0, hl⟩ = m.get ⟨0, h0m⟩ := by
      simp only [List.get_eq_getElem]
      rw [List.getElem?_eq_getElem hl, List.getElem?_eq_getElem h0m] at h01
      exact Option.some.inj h01
    rw [hget]
    exact List.dropWhile_eq_self_iff.mp hm_self h0m
  rw [hdrop]
  exact List.rdropWhile_idempotent isPySpace m

lemma mem_dropWhile_of_not {p : Char → Bool} {x : Char} :
    ∀ {l : Chars}, x ∈ l → p x = false → x ∈ l.dropWhile p
  | [], hx, _ => by cases hx
  | a :: l, hx, hpx => by
    by_cases hpa : p a
    · rw [List.dropWhile_cons_of_pos hpa]
      rcases List.mem_cons.mp hx with rfl | hx2
      · rw [hpa] at hpx; cases hpx
      · exact mem_dropWhile_of_not hx2 hpx
    · rwa [List.dropWhile_cons_of_neg hpa]

lemma mem_pyStrip_of_not {x : Char} {l : Chars} (hx : x ∈ l)
    (hpx : isPySpace x = false) : x ∈ pyStrip l := by
  unfold pyStrip dropTrailingSpace
  have h1 : x ∈ l.dropWhile isPySpace := mem_dropWhile_of_not hx hpx
  have h2 : x ∈ (l.dropWhile isPySpace).reverse := List.mem_reverse.mpr h1
  have h3 : x ∈ (l.dropWhile isPySpace).reverse.dropWhile isPySpace :=
    mem_dropWhile_of_not h2 hpx
  exact List.mem_reverse.mpr h3

lemma pyStrip_ne_nil_of_mem {x : Char} {l : Chars} (hx : x ∈ l)
    (hpx : isPySpace x = false) : pyStrip l ≠ [] := by
  intro hnil
  have := mem_pyStrip_of_not hx hpx
  rw [hnil] at this
  cases this

/-! ### The pattern loop refines the spec's first-accepted description -/

lemma tryPatternsLoop_eq_firstAccepted :
    ∀ (ps : List (Chars → Option Chars)) (text : Chars),
      tryPatternsLoop ps text = firstAccepted ps text
  | [], _ => rfl
  | p :: ps, text => by
    unfold tryPatternsLoop firstAccepted acceptPattern
    by_cases hlen : 1 < (reSplit p text).length
    · by_cases hcl : 3 < (cleanClauses (reSplit p text)).length
      · simp [hlen, hcl]
      · simp [hlen, hcl, tryPatternsLoop_eq_firstAccepted ps text]
    · have hle : (reSplit p text).length ≤ 1 := Nat.le_of_not_lt hlen
      have hcl : ¬ 3 < (cleanClauses (reSplit p text)).length := by
        have := cleanClauses_length_le (reSplit p text)
        omega
      simp [hlen, hcl, tryPatternsLoop_eq_firstAccepted ps text]

lemma extract_clauses_eq (tok : Chars → List Chars) (text : Chars) :
    extract_clauses tok text =
      match firstAccepted clausePatterns text with
      | some cs => cs
      | none => groupSentences (tok text) := by
  unfold extract_clauses
  rw [tryPatternsLoop_eq_firstAccepted]

lemma firstAccepted_mem_prop :
    ∀ (ps : List (Chars → Option Chars)) (text : Chars) (r : List Chars),
      firstAccepted ps text = some r →
      ∀ c ∈ r, pyStrip c = c ∧ 50 < c.length
  | [], _, _, h => by cases h
  | p :: ps, text, r, h => by
    unfold firstAccepted acceptPattern at h
    by_cases hcl : 3 < (cleanClauses (reSplit p text)).length
    · simp only [hcl, if_true] at h
      intro c hc
      rw [← Option.some.inj h] at hc
      rcases mem_cleanClauses hc with ⟨hlen, c₀, _, rfl⟩
      exact ⟨pyStrip_idem c₀, hlen⟩
    · simp only [hcl, if_false] at h
      exact firstAccepted_mem_prop ps text r h

/-! ### The grouping loop refines the spec's chopping description -/

lemma takeGroup3_append : ∀ (n : Nat) (l : List Chars),
    (takeGroup3 n l).1 ++ (takeGroup3 n l).2 = l
  | _, [] => by simp [takeGroup3]
  | 0, _ :: _ => by simp [takeGroup3]
  | n + 1, s :: rest => by
    simp only [takeGroup3]
    by_cases h : endsColonSemi s = true ∨ n = 0
    · rw [if_pos h]; rfl
    · rw [if_neg h]
      simpa using takeGroup3_append n rest

lemma takeGroup3_snd_le : ∀ (n : Nat) (l : List Chars),
    (takeGroup3 n l).2.length ≤ l.length
  | _, [] => by simp [takeGroup3]
  | 0, _ :: _ => by simp [takeGroup3]
  | n + 1, s :: rest => by
    simp only [takeGroup3]
    by_cases h : endsColonSemi s = true ∨ n = 0
    · rw [if_pos h]; simp
    · rw [if_neg h]
      have := takeGroup3_snd_le n rest
      simp only [List.length_cons]
      omega

lemma takeGroup3_snd_cons_le (n : Nat) (s : Chars) (rest : List Chars) :
    (takeGroup3 (n + 1) (s :: rest)).2.length ≤ rest.length := by
  simp only [takeGroup3]
  by_cases h : endsColonSemi s = true ∨ n = 0
  · rw [if_pos h]
  · rw [if_neg h]
    exact takeGroup3_snd_le n rest

lemma takeGroup3_three_snd_le (s : Chars) (rest : List Chars) :
    (takeGroup3 3 (s :: rest)).2.length ≤ rest.length :=
  takeGroup3_snd_cons_le 2 s rest

lemma chopGo_congr : ∀ (n : Nat) (sents : List Chars) (f g : Nat),
    sents.length ≤ n → sents.length ≤ f → sents.length ≤ g →
    chopGo f sents = chopGo g sents := by
  intro n
  induction n with
  | zero =>
    intro sents f g h1 _ _
    have : sents = [] := List.length_eq_zero.mp (Nat.le_zero.mp h1)
    subst this
    cases f <;> cases g <;> rfl
  | succ n ih =>
    intro sents f g h1 hf hg
    cases sents with
    | nil => cases f <;> cases g <;> rfl
    | cons s rest =>
      simp only [List.length_cons] at h1 hf hg
      cases f with
      | zero => omega
      | succ f =>
        cases g with
        | zero => omega
        | succ g =>
          simp only [chopGo]
          have hle := takeGroup3_three_snd_le s rest
          exact congrArg _ (ih _ f g (by omega) (by omega) (by omega))

lemma chopGroups_cons (t : Chars) (rest : List Chars) :
    chopGroups (t :: rest) =
      (takeGroup3 3 (t :: rest)).1 :: chopGroups (takeGroup3 3 (t :: rest)).2 := by
  unfold chopGroups
  simp only [List.length_cons, chopGo]
  have hle := takeGroup3_three_snd_le t rest
  exact congrArg _
    (chopGo_congr rest.length _ rest.length ((takeGroup3 3 (t :: rest)).2.length)
      hle hle le_rfl)

lemma groupGo_nil (cur : List Chars) :
    groupGo cur [] = if cur.isEmpty then [] else [joinSpace cur] := rfl

lemma groupGo_cons (cur : List Chars) (s : Chars) (rest : List Chars) :
    groupGo cur (s :: rest) =
      if 3 ≤ (cur ++ [s]).length ∨ endsColonSemi s = true then
        joinSpace (cur ++ [s]) :: groupGo [] rest
      else groupGo (cur ++ [s]) rest := rfl

lemma takeGroup3_nil (n : Nat) : takeGroup3 n [] = ([], []) := by
  cases n <;> rfl

lemma takeGroup3_cons (n : Nat) (s : Chars) (rest : List Chars) :
    takeGroup3 (n + 1) (s :: rest) =
      if endsColonSemi s = true ∨ n = 0 then ([s], rest)
      else ((s :: (takeGroup3 n rest).1), (takeGroup3 n rest).2) := rfl

lemma groupGo_single (s : Chars) (cur : List Chars) (hcur : cur.length ≤ 2) :
    groupGo cur [s] =
      joinSpace (cur ++ (takeGroup3 (3 - cur.length) [s]).1) ::
        (chopGroups (takeGroup3 (3 - cur.length) [s]).2).map joinSpace := by
  obtain ⟨m, hm⟩ : ∃ m, 3 - cur.length = m + 1 := ⟨2 - cur.length, by omega⟩
  rw [hm, groupGo_cons, takeGroup3_cons]
  have hne : (cur ++ [s]).isEmpty = false := by
    cases cur <;> rfl
  by_cases h : endsColonSemi s = true ∨ m = 0
  · rw [if_pos h]
    by_cases hc : 3 ≤ (cur ++ [s]).length ∨ endsColonSemi s = true
    · rw [if_pos hc]
      simp [groupGo_nil, chopGroups, chopGo]
    · rw [if_neg hc]
      simp [groupGo_nil, hne, chopGroups, chopGo]
  · rw [if_neg h]
    simp only [takeGroup3_nil]
    by_cases hc : 3 ≤ (cur ++ [s]).length ∨ endsColonSemi s = true
    · rw [if_pos hc]
      simp [groupGo_nil, chopGroups, chopGo]
    · rw [if_neg hc]
      simp [groupGo_nil, hne, chopGroups, chopGo]

lemma groupGo_chopCons : ∀ (n : Nat) (s : Chars) (rest : List Chars),
    rest.length ≤ n → ∀ cur : List Chars, cur.length ≤ 2 →
    groupGo cur (s :: rest) =
      joinSpace (cur ++ (takeGroup3 (3 - cur.length) (s :: rest)).1) ::
        (chopGroups (takeGroup3 (3 - cur.length) (s :: rest)).2).map joinSpace := by
  intro n
  induction n with
  | zero =>
    intro s rest hle cur hcur
    have hnil : rest = [] := List.length_eq_zero.mp (Nat.le_zero.mp hle)
    subst hnil
    exact groupGo_single s cur hcur
  | succ n ih =>
    intro s rest hle cur hcur
    cases rest with
    | nil => exact groupGo_single s cur hcur
    | cons t rest2 =>
      obtain ⟨m, hm⟩ : ∃ m, 3 - cur.length = m + 1 := ⟨2 - cur.length, by omega⟩
      rw [hm, groupGo_cons, takeGroup3_cons]
      simp only [List.length_cons] at hle
      by_cases htrig : endsColonSemi s = true
      · rw [if_pos (Or.inr htrig), if_pos (Or.inl htrig)]
        congr 1
        rw [ih t rest2 (by omega) [] (by simp)]
        rw [chopGroups_cons t rest2]
        simp
      · by_cases hm0 : m = 0
        · have hk : cur.length = 2 := by omega
          rw [if_pos (Or.inl (by simp [hk])), if_pos (Or.inr hm0)]
          congr 1
          rw [ih t rest2 (by omega) [] (by simp)]
          rw [chopGroups_cons t rest2]
          simp
        · have hk1 : cur.length ≤ 1 := by omega
          rw [if_neg (by simp [htrig]; omega),
              if_neg (by simp [htrig, hm0])]
          rw [ih t rest2 (by omega) (cur ++ [s]) (by simp; omega)]
          have hlen : 3 - (cur ++ [s]).length = m := by simp; omega
          rw [hlen]
          simp [List.append_assoc]

lemma groupSentences_eq_chop (sents : List Chars) :
    groupSentences sents = (chopGroups sents).map joinSpace := by
  cases sents with
  | nil => rfl
  | cons s rest =>
    have h := groupGo_chopCons rest.length s rest le_rfl [] (by simp)
    unfold groupSentences
    rw [h, chopGroups_cons s rest]
    simp

/-! ### Helper lemmas for the risk classifier -/

lemma anyMatch_eq_any : ∀ (ps : List (List Chars)) (t : Chars),
    anyMatch ps t = ps.any (fun p => reSearch p t)
  | [], _ => rfl
  | p :: ps, t => by
    simp only [anyMatch, List.any_cons]
    by_cases h : reSearch p t
    · simp [h]
    · simp [h, anyMatch_eq_any ps t]

lemma anyMatch_true_iff (ps : List (List Chars)) (t : Chars) :
    anyMatch ps t = true ↔ ∃ p ∈ ps, reSearch p t = true := by
  rw [anyMatch_eq_any]
  simp [List.any_eq_true]

lemma anyMatch_false_iff (ps : List (List Chars)) (t : Chars) :
    anyMatch ps t = false ↔ ∀ p ∈ ps, reSearch p t = false := by
  rw [anyMatch_eq_any]
  simp [List.any_eq_false]

lemma categoryLoop_first : ∀ (L : List (String × List Chars)) (l : Chars)
    (i : Nat) (hi : i < L.length),
    catMatches (L.get ⟨i, hi⟩) l = true →
    (∀ j (hj : j < i), catMatches (L.get ⟨j, Nat.lt_trans hj hi⟩) l = false) →
    categoryLoop L l = (L.get ⟨i, hi⟩).1
  | [], _, i, hi, _, _ => by cases hi
  | e :: L, l, 0, _, hm, _ => by
    simp only [List.get] at hm ⊢
    simp [categoryLoop, hm]
  | e :: L, l, i + 1, hi, hm, hprev => by
    have h0 : catMatches e l = false := by
      have := hprev 0 (Nat.succ_pos i)
      simpa using this
    simp only [List.get] at hm ⊢
    simp only [categoryLoop, h0, Bool.false_eq_true, if_false]
    exact categoryLoop_first L l i (Nat.lt_of_succ_lt_succ hi) hm
      (fun j hj => by
        have := hprev (j + 1) (Nat.succ_lt_succ hj)
        simpa using this)

lemma categoryLoop_none : ∀ (L : List (String × List Chars)) (l : Chars),
    (∀ e ∈ L, catMatches e l = false) → categoryLoop L l = "General"
  | [], _, _ => rfl
  | e :: L, l, h => by
    have h0 := h e (List.mem_cons_self e L)
    simp only [categoryLoop, h0, Bool.false_eq_true, if_false]
    exact categoryLoop_none L l (fun x hx => h x (List.mem_cons_of_mem e hx))

/-! ### Helper lemmas for the results loop -/

lemma buildGo_get? (explain suggest : Chars → Chars) :
    ∀ (clauses : List Chars) (i k : Nat),
    (buildGo explain suggest i clauses).get? k =
      (clauses.get? k).map (fun c => mkClauseRecord explain suggest (i + k) c)
  | [], _, k => by cases k <;> rfl
  | c :: cs, i, 0 => by simp [buildGo]
  | c :: cs, i, k + 1 => by
    simp only [buildGo, List.get?_cons_succ]
    rw [buildGo_get? explain suggest cs (i + 1) k]
    have : i + 1 + k = i + (k + 1) := by omega
    rw [this]

/-! ### Non-whitespace content survives grouping (fallback path) -/

lemma mem_joinSpace_of_mem : ∀ (g : List Chars) (s : Chars), s ∈ g →
    ∀ x ∈ s, x ∈ joinSpace g
  | [], _, hs => by cases hs
  | [s0], s, hs => by
    rcases List.mem_singleton.mp hs with rfl
    intro x hx
    simpa [joinSpace] using hx
  | s0 :: t :: rest, s, hs => by
    intro x hx
    simp only [joinSpace, List.mem_append, List.mem_cons]
    rcases List.mem_cons.mp hs with rfl | hs2
    · exact Or.inl hx
    · exact Or.inr (Or.inr (mem_joinSpace_of_mem (t :: rest) s hs2 x hx))

/-- Every clause emitted by the grouping loop, when every pending and
incoming sentence holds a non-whitespace character, holds a
non-whitespace character itself. -/
lemma groupGo_nonspace : ∀ (sents : List Chars) (cur : List Chars),
    (∀ s ∈ cur, ∃ x ∈ s, isPySpace x = false) →
    (∀ s ∈ sents, ∃ x ∈ s, isPySpace x = false) →
    ∀ cl ∈ groupGo cur sents, ∃ x ∈ cl, isPySpace x = false
  | [], cur, hcur, _ => by
    intro cl hcl
    rw [groupGo_nil] at hcl
    rcases hc : cur.isEmpty with _ | _
    · rw [hc] at hcl
      simp only [Bool.false_eq_true, if_false, List.mem_singleton] at hcl
      subst hcl
      rcases cur with _ | ⟨s0, cur2⟩
      · simp at hc
      · rcases hcur s0 (List.mem_cons_self s0 cur2) with ⟨x, hxs, hxn⟩
        exact ⟨x, mem_joinSpace_of_mem _ s0 (List.mem_cons_self s0 cur2) x hxs, hxn⟩
    · rw [hc] at hcl
      simp at hcl
  | s :: rest, cur, hcur, hsents => by
    intro cl hcl
    rw [groupGo_cons] at hcl
    have hs0 : ∃ x ∈ s, isPySpace x = false :=
      hsents s (List.mem_cons_self s rest)
    have hcur2 : ∀ u ∈ cur ++ [s], ∃ x ∈ u, isPySpace x = false := by
      intro u hu
      rcases List.mem_append.mp hu with hu1 | hu2
      · exact hcur u hu1
      · rcases List.mem_singleton.mp hu2 with rfl
        exact hs0
    have hrest : ∀ u ∈ rest, ∃ x ∈ u, isPySpace x = false :=
      fun u hu => hsents u (List.mem_cons_of_mem s hu)
    by_cases hc : 3 ≤ (cur ++ [s]).length ∨ endsColonSemi s = true
    · rw [if_pos hc] at hcl
      rcases List.mem_cons.mp hcl with rfl | hcl2
      · rcases hs0 with ⟨x, hxs, hxn⟩
        exact ⟨x, mem_joinSpace_of_mem _ s (by simp) x hxs, hxn⟩
      · exact groupGo_nonspace rest [] (by simp) hrest cl hcl2
    · rw [if_neg hc] at hcl
      exact groupGo_nonspace rest (cur ++ [s]) hcur2 hrest cl hcl

/-! ### Helper lemmas for the aggregate scorer -/

lemma riskScoreHighVal : riskScore "High" = 3 := by decide

lemma riskScoreMediumVal : riskScore "Medium" = 2 := by decide

lemma riskScoreLowVal : riskScore "Low" = 1 := by decide

lemma avgScore_nilVal : avgScore [] = 1 := by
  unfold avgScore
  norm_num

lemma avgScoreMM : avgScore ["Medium", "Medium"] = 2 := by
  unfold avgScore totalScore
  norm_num [riskScoreMediumVal]

lemma avgScoreHHL : avgScore ["High", "High", "Low"] = 7 / 3 := by
  unfold avgScore totalScore
  norm_num [riskScoreHighVal, riskScoreLowVal]

lemma avgScoreHH : avgScore ["High", "High"] = 3 := by
  unfold avgScore totalScore
  norm_num [riskScoreHighVal]

lemma avgScoreML : avgScore ["Medium", "Low"] = 3 / 2 := by
  unfold avgScore totalScore
  norm_num [riskScoreMediumVal, riskScoreLowVal]

lemma overall_iff_high (levels : List String) :
    calculate_overall_risk levels = "High Risk" ↔ 5 / 2 ≤ avgScore levels := by
  unfold calculate_overall_risk
  by_cases h1 : (5 : ℚ) / 2 ≤ avgScore levels
  · rw [if_pos h1]
    simp [h1]
  · rw [if_neg h1]
    by_cases h2 : (3 : ℚ) / 2 ≤ avgScore levels
    · rw [if_pos h2]
      exact ⟨fun h => absurd h (by decide), fun h => absurd h h1⟩
    · rw [if_neg h2]
      exact ⟨fun h => absurd h (by decide), fun h => absurd h h1⟩

lemma overall_iff_medium (levels : List String) :
    calculate_overall_risk levels = "Medium Risk" ↔
      3 / 2 ≤ avgScore levels ∧ avgScore levels < 5 / 2 := by
  unfold calculate_overall_risk
  by_cases h1 : (5 : ℚ) / 2 ≤ avgScore levels
  · rw [if_pos h1]
    exact ⟨fun h => absurd h (by decide), fun h => absurd h1 (not_le.mpr h.2)⟩
  · rw [if_neg h1]
    by_cases h2 : (3 : ℚ) / 2 ≤ avgScore levels
    · rw [if_pos h2]
      exact ⟨fun _ => ⟨h2, lt_of_not_le h1⟩, fun _ => rfl⟩
    · rw [if_neg h2]
      exact ⟨fun h => absurd h (by decide), fun h => absurd h.1 h2⟩

lemma overall_iff_low (levels : List String) :
    calculate_overall_risk levels = "Low Risk" ↔ avgScore levels < 3 / 2 := by
  unfold calculate_overall_risk
  by_cases h1 : (5 : ℚ) / 2 ≤ avgScore levels
  · rw [if_pos h1]
    constructor
    · intro h; exact absurd h (by decide)
    · intro h
      exact absurd (lt_of_le_of_lt h1 h) (by norm_num)
  · rw [if_neg h1]
    by_cases h2 : (3 : ℚ) / 2 ≤ avgScore levels
    · rw [if_pos h2]
      exact ⟨fun h => absurd h (by decide), fun h => absurd h2 (not_le.mpr h)⟩
    · rw [if_neg h2]
      exact ⟨fun _ => lt_of_not_le h2, fun _ => rfl⟩

/-! ### A few more segmentation helpers -/

lemma firstAccepted_eq_none :
    ∀ (ps : List (Chars → Option Chars)) (text : Chars),
    (∀ p ∈ ps, acceptPattern p text = none) → firstAccepted ps text = none
  | [], _, _ => rfl
  | p :: ps, text, h => by
    have h0 := h p (List.mem_cons_self p ps)
    simp only [firstAccepted, h0]
    exact firstAccepted_eq_none ps text
      (fun q hq => h q (List.mem_cons_of_mem p hq))

lemma append_ne_of_idx3 (pre fixed : Chars) (h3 : 3 < pre.length)
    (hne : pre[3]? ≠ fixed[3]?) : ∀ name : Chars, pre ++ name ≠ fixed := by
  intro name h
  have h1 : (pre ++ name)[3]? = pre[3]? := List.getElem?_append_left h3
  rw [h] at h1
  exact hne h1.symm

/-! ### Concrete inputs used by witnesses and scenario claims -/

/-- A degenerate sentence tokenizer for runs that never reach the
fallback path. -/
def tok0 : Chars → List Chars := fun t => [t]

def c6frag1 : Chars :=
  "1. The Employer may terminate without cause. This termination right applies at any time during the engagement.".data
def c6frag2 : Chars :=
  "Confidentiality shall be indefinite. The receiving party shall protect all disclosed information accordingly.".data
def c6frag3 : Chars :=
  "Payment is due monthly. All invoices shall be settled within thirty days of the invoice date by bank transfer.".data
def c6frag4 : Chars :=
  "Either party may renew by mutual agreement. Any renewal shall be recorded in writing and signed by both parties.".data

/-- The end-to-end scenario contract: the four numbered clauses of the
spec's scenario, each padded beyond 50 characters, one per line. -/
def c6text : Chars :=
  c6frag1 ++ '\n' :: ("2. ".data ++ c6frag2) ++ '\n' :: ("3. ".data ++ c6frag3)
    ++ '\n' :: ("4. ".data ++ c6frag4)

/-- The scenario text extended with a fifth, short numbered fragment
whose content (letter `q`) occurs nowhere else. -/
def c7text : Chars := c6text ++ "\n5. qqqq".data

def c2clause : Chars :=
  "The supplier retains a unilateral termination right plus a force majeure broad carve-out.".data

def c5clause : Chars :=
  "Any penalty imposed shall not limit the duty to indemnify the client.".data

def c10clause : Chars :=
  "Renewal of this agreement occurs only by mutual agreement of the parties involved.".data

def w4s1 : Chars := "First the parties define the scope:".data
def w4s2 : Chars := "One.".data
def w4s3 : Chars := "Two.".data
def w4s4 : Chars := "Three.".data
def w4s5 : Chars := "Tail.".data

def tokW4 : Chars → List Chars := fun _ => [w4s1, w4s2, w4s3, w4s4, w4s5]

def textW4 : Chars :=
  "Plain agreement text with no structural numbering anywhere.".data

def w7sentence : Chars := "The quick brown fox files a motion.".data

def tokW7 : Chars → List Chars := fun _ => [w7sentence]

def textW7 : Chars :=
  "No structural markers appear in this short text.".data

def c8clause : Chars :=
  "The receiving party shall keep all disclosed materials in strict confidence for five years after the expiry of this agreement, including the unique marker zzz.".data

def noProvider : Chars → Chars := fun _ => []

/-! ### Claims -/

/-- C1: for every contract text, segmentation tries the five structural
split patterns in the listed order; for each pattern it splits on every
occurrence, trims the fragments, discards those of trimmed length at most
50, and accepts exactly the surviving fragments as soon as strictly more
than 3 survive, trying no later pattern and no fallback; consequently
every clause returned by the structural path is trimmed and longer than
50 characters. -/
theorem c1_structural_priority (tok : Chars → List Chars) (text : Chars) :
    extract_clauses tok text =
      (match firstAccepted clausePatterns text with
       | some r => r
       | none => groupSentences (tok text)) ∧
    (∀ r, firstAccepted clausePatterns text = some r →
      ∀ c ∈ r, pyStrip c = c ∧ 50 < c.length) :=
  ⟨extract_clauses_eq tok text,
   fun r h => firstAccepted_mem_prop clausePatterns text r h⟩

set_option maxRecDepth 4000 in
theorem c1_structural_priority_witness :
    pyStrip c6frag1 = c6frag1 ∧ 50 < c6frag1.length :=
  (c1_structural_priority tok0 c6text).2
    [c6frag1, c6frag2, c6frag3, c6frag4] (by decide) c6frag1 (by decide)

/-- C2: `classify_risk` lower-cases the clause and tests the High-risk
patterns first, returning "High" when any matches; only if none matches
does it test the Medium-risk patterns, returning "Medium" on a match; it
returns "Low" when neither list matches.  Hence a clause matching both a
High-risk and a Medium-risk pattern classifies "High". -/
theorem c2_risk_priority (clause : Chars) :
    ((∃ p ∈ defaultRiskPatterns.high_risk,
        reSearch p (lowerChars clause) = true) →
      assess_clause_risk clause = "High") ∧
    ((∀ p ∈ defaultRiskPatterns.high_risk,
        reSearch p (lowerChars clause) = false) →
     (∃ p ∈ defaultRiskPatterns.medium_risk,
        reSearch p (lowerChars clause) = true) →
      assess_clause_risk clause = "Medium") ∧
    ((∀ p ∈ defaultRiskPatterns.high_risk,
        reSearch p (lowerChars clause) = false) →
     (∀ p ∈ defaultRiskPatterns.medium_risk,
        reSearch p (lowerChars clause) = false) →
      assess_clause_risk clause = "Low") := by
  unfold assess_clause_risk assessWith
  refine ⟨?_, ?_, ?_⟩
  · intro h
    rw [if_pos ((anyMatch_true_iff _ _).mpr h)]
  · intro hh hm
    rw [(anyMatch_false_iff _ _).mpr hh]
    simp only [Bool.false_eq_true, if_false]
    rw [if_pos ((anyMatch_true_iff _ _).mpr hm)]
  · intro hh hm
    rw [(anyMatch_false_iff _ _).mpr hh, (anyMatch_false_iff _ _).mpr hm]
    simp only [Bool.false_eq_true, if_false]

theorem c2_risk_priority_witness : assess_clause_risk c2clause = "High" :=
  (c2_risk_priority c2clause).1 ⟨hrUnilateral, by decide, by decide⟩

/-- C3: `overall_risk` maps High to 3, Medium to 2, Low to 1 and any
other level to 1, averages (1 for the empty sequence), and returns
"High Risk" iff the mean is at least 5/2, "Medium Risk" iff it lies in
[3/2, 5/2), and "Low Risk" iff it is below 3/2; the listed boundary
sequences behave accordingly. -/
theorem c3_overall_risk (levels : List String) :
    (calculate_overall_risk levels = "High Risk" ↔
      5 / 2 ≤ avgScore levels) ∧
    (calculate_overall_risk levels = "Medium Risk" ↔
      3 / 2 ≤ avgScore levels ∧ avgScore levels < 5 / 2) ∧
    (calculate_overall_risk levels = "Low Risk" ↔
      avgScore levels < 3 / 2) ∧
    riskScore "High" = 3 ∧ riskScore "Medium" = 2 ∧ riskScore "Low" = 1 ∧
    (∀ s : String, s ≠ "High" → s ≠ "Medium" → riskScore s = 1) ∧
    avgScore [] = 1 ∧
    calculate_overall_risk ["Medium", "Medium"] = "Medium Risk" ∧
    calculate_overall_risk ["High", "High", "Low"] = "Medium Risk" ∧
    calculate_overall_risk ["High", "High"] = "High Risk" ∧
    calculate_overall_risk ["Medium", "Low"] = "Medium Risk" ∧
    calculate_overall_risk [] = "Low Risk" := by
  refine ⟨overall_iff_high levels, overall_iff_medium levels,
    overall_iff_low levels, by decide, by decide, by decide, ?_, ?_,
    ?_, ?_, ?_, ?_, ?_⟩
  · intro s h1 h2
    unfold riskScore
    rw [if_neg h1, if_neg h2]
  · exact avgScore_nilVal
  · rw [overall_iff_medium, avgScoreMM]
    norm_num
  · rw [overall_iff_medium, avgScoreHHL]
    norm_num
  · rw [overall_iff_high, avgScoreHH]
    norm_num
  · rw [overall_iff_medium, avgScoreML]
    norm_num
  · rw [overall_iff_low, avgScore_nilVal]
    norm_num

theorem c3_overall_risk_witness : riskScore "Unknown" = 1 :=
  (c3_overall_risk []).2.2.2.2.2.2.1 "Unknown" (by decide) (by decide)

/-- C4: when no structural pattern yields more than 3 qualifying
fragments, segmentation falls back to sentence grouping: sentences are
accumulated and a group is emitted, joined by single spaces, exactly when
it reaches 3 sentences or the sentence just added ends with ':' or ';',
with any non-empty trailing group emitted at the end (the behaviour of
the spec-level chopper `chopGroups`). -/
theorem c4_sentence_fallback (tok : Chars → List Chars) (text : Chars)
    (h : ∀ p ∈ clausePatterns, acceptPattern p text = none) :
    extract_clauses tok text = (chopGroups (tok text)).map joinSpace := by
  rw [extract_clauses_eq, firstAccepted_eq_none clausePatterns text h]
  exact groupSentences_eq_chop (tok text)

theorem c4_sentence_fallback_witness :
    extract_clauses tokW4 textW4 =
      [w4s1, "One. Two. Three.".data, w4s5] :=
  (c4_sentence_fallback tokW4 textW4 (by decide)).trans (by decide)

/-- C5: `classify_category` lower-cases the clause and walks the
category list in its declared order, returning the first category with a
matching keyword and "General" when none matches; a clause containing
both "penalty" and "indemnify" therefore classifies "Penalty Clauses". -/
theorem c5_category_order (clause : Chars) :
    (∀ i (hi : i < risk_categories.length),
      catMatches (risk_categories.get ⟨i, hi⟩) (lowerChars clause) = true →
      (∀ j (hj : j < i),
        catMatches (risk_categories.get ⟨j, Nat.lt_trans hj hi⟩)
          (lowerChars clause) = false) →
      get_risk_category clause = (risk_categories.get ⟨i, hi⟩).1) ∧
    ((∀ e ∈ risk_categories, catMatches e (lowerChars clause) = false) →
      get_risk_category clause = "General") := by
  constructor
  · intro i hi hm hp
    exact categoryLoop_first risk_categories (lowerChars clause) i hi hm hp
  · intro h
    exact categoryLoop_none risk_categories (lowerChars clause) h

theorem c5_category_order_witness :
    get_risk_category c5clause = "Penalty Clauses" :=
  ((c5_category_order c5clause).1 0 (by decide) (by decide)
    (fun j hj => absurd hj (Nat.not_lt_zero j))).trans (by decide)

set_option maxRecDepth 8000 in
/-- C6: the end-to-end scenario — the padded four-clause contract
segments into exactly 4 clauses, classified High, Medium, Low, Low, with
overall risk "Medium Risk". -/
theorem c6_end_to_end :
    extract_clauses tok0 c6text = [c6frag1, c6frag2, c6frag3, c6frag4] ∧
    assess_clause_risk c6frag1 = "High" ∧
    assess_clause_risk c6frag2 = "Medium" ∧
    assess_clause_risk c6frag3 = "Low" ∧
    assess_clause_risk c6frag4 = "Low" ∧
    calculate_overall_risk
        ((extract_clauses tok0 c6text).map assess_clause_risk) =
      "Medium Risk" := by
  have hseg : extract_clauses tok0 c6text =
      [c6frag1, c6frag2, c6frag3, c6frag4] := by decide
  have h1 : assess_clause_risk c6frag1 = "High" := by decide
  have h2 : assess_clause_risk c6frag2 = "Medium" := by decide
  have h3 : assess_clause_risk c6frag3 = "Low" := by decide
  have h4 : assess_clause_risk c6frag4 = "Low" := by decide
  refine ⟨hseg, h1, h2, h3, h4, ?_⟩
  rw [hseg]
  simp only [List.map_cons, List.map_nil, h1, h2, h3, h4]
  rw [overall_iff_medium]
  have ha : avgScore ["High", "Medium", "Low", "Low"] = 7 / 4 := by
    unfold avgScore totalScore
    norm_num [riskScoreHighVal, riskScoreMediumVal, riskScoreLowVal]
  rw [ha]
  norm_num

set_option maxRecDepth 8000 in
/-- C7 counterexample: in `c7text` the letter 'q' occurs (inside the
short fifth numbered fragment, so it is neither whitespace nor part of a
split marker), yet no clause returned by segmentation contains 'q' — the
fragment is silently discarded for having trimmed length at most 50. -/
theorem c7_content_counterexample :
    c7text.any (fun c => c == 'q') = true ∧
    (extract_clauses tok0 c7text).all
      (fun cl => cl.all (fun c => !(c == 'q'))) = true := by
  constructor
  · decide
  · decide

/-- C7 as amended: every element returned by segmentation is non-empty
after trimming (for the fallback path, provided every tokenizer sentence
holds a non-whitespace character); content preservation does not hold in
general, since structural fragments of trimmed length at most 50 are
discarded entirely. -/
theorem c7_nonempty_amended (tok : Chars → List Chars) (text : Chars)
    (htok : ∀ s ∈ tok text, ∃ x ∈ s, isPySpace x = false) :
    ∀ cl ∈ extract_clauses tok text, pyStrip cl ≠ [] := by
  intro cl hcl
  rw [extract_clauses_eq] at hcl
  cases hfa : firstAccepted clausePatterns text with
  | some r =>
    rw [hfa] at hcl
    have hcl2 : cl ∈ r := hcl
    rcases firstAccepted_mem_prop clausePatterns text r hfa cl hcl2 with
      ⟨hstrip, hlen⟩
    rw [hstrip]
    intro hnil
    rw [hnil] at hlen
    simp at hlen
  | none =>
    rw [hfa] at hcl
    have hcl2 : cl ∈ groupGo [] (tok text) := hcl
    rcases groupGo_nonspace (tok text) [] (by simp) htok cl hcl2 with
      ⟨x, hx, hxn⟩
    exact pyStrip_ne_nil_of_mem hx hxn

theorem c7_nonempty_amended_witness : pyStrip w7sentence ≠ [] :=
  c7_nonempty_amended tokW7 textW7 (by decide) w7sentence (by decide)

/-- C8 counterexample: the record built for a clause does not carry the
clause's text — `app.py` stores the first 100 characters with an
appended ellipsis, so for a clause longer than 100 characters the stored
text differs from the clause. -/
theorem c8_text_counterexample :
    (buildResults noProvider noProvider [c8clause]).map ClauseRecord.text ≠
      [c8clause] := by
  decide

/-- C8 as amended: the record at 0-based position k carries clause index
k+1 (1-based, in output order), the first 100 characters of the clause's
text followed by "...", the clause's risk level, risk category,
explanation, and suggestion. -/
theorem c8_record_fields (explain suggest : Chars → Chars)
    (clauses : List Chars) (k : Nat) :
    (buildResults explain suggest clauses).get? k =
      (clauses.get? k).map
        (fun c =>
          { clauseNum := k + 1,
            text := c.take 100 ++ dotsSuffix,
            riskLevel := assess_clause_risk c,
            riskCategory := get_risk_category c,
            explanation := explain c,
            suggestion := suggest c }) := by
  unfold buildResults
  rw [buildGo_get? explain suggest clauses 0 k]
  simp [mkClauseRecord]

/-- C9: for every provider outcome — not configured, authentication
failure, rate limit, other error, or success — `explain_clause` and
`suggest_alternative` return a (condition-distinguishing) degraded-mode
string rather than raising, the single call is consumed once, and a
provider failure on one clause leaves every other clause's record
unchanged. -/
theorem c9_provider_degradation :
    (∀ (call : Chars → ProviderResult) (clause : Chars),
      explain_clause false call clause = notCfgExplainMsg) ∧
    (∀ (call : Chars → ProviderResult) (clause : Chars),
      suggest_alternative false call clause = notCfgSuggestMsg) ∧
    (∀ (s clause : Chars),
      explain_clause true (fun _ => ProviderResult.ok s) clause = pyStrip s) ∧
    (∀ (s clause : Chars),
      suggest_alternative true (fun _ => ProviderResult.ok s) clause
        = pyStrip s) ∧
    (∀ (name clause : Chars), containsSub authToken name = true →
      explain_clause true (fun _ => ProviderResult.exn name) clause
        = authFailMsg) ∧
    (∀ (name clause : Chars), containsSub authToken name = false →
      containsSub rateToken name = true →
      explain_clause true (fun _ => ProviderResult.exn name) clause
        = rateLimitMsg) ∧
    (∀ (name clause : Chars), containsSub authToken name = false →
      containsSub rateToken name = false →
      explain_clause true (fun _ => ProviderResult.exn name) clause
        = otherExplainMsg name) ∧
    (∀ (name clause : Chars), containsSub authToken name = true →
      suggest_alternative true (fun _ => ProviderResult.exn name) clause
        = authFailMsg) ∧
    (∀ (name clause : Chars), containsSub authToken name = false →
      containsSub rateToken name = true →
      suggest_alternative true (fun _ => ProviderResult.exn name) clause
        = rateLimitMsg) ∧
    (∀ (name clause : Chars), containsSub authToken name = false →
      containsSub rateToken name = false →
      suggest_alternative true (fun _ => ProviderResult.exn name) clause
        = otherSuggestMsg name) ∧
    (notCfgExplainMsg ≠ authFailMsg ∧ notCfgExplainMsg ≠ rateLimitMsg ∧
      notCfgSuggestMsg ≠ authFailMsg ∧ notCfgSuggestMsg ≠ rateLimitMsg ∧
      authFailMsg ≠ rateLimitMsg) ∧
    (∀ name : Chars,
      otherExplainMsg name ≠ authFailMsg ∧
      otherExplainMsg name ≠ rateLimitMsg ∧
      otherExplainMsg name ≠ notCfgExplainMsg ∧
      otherSuggestMsg name ≠ authFailMsg ∧
      otherSuggestMsg name ≠ rateLimitMsg ∧
      otherSuggestMsg name ≠ notCfgSuggestMsg) ∧
    (∀ (e e2 s s2 : Chars → Chars) (clauses : List Chars) (i : Nat)
        (c : Chars),
      clauses.get? i = some c → e c = e2 c → s c = s2 c →
      (buildResults e s clauses).get? i
        = (buildResults e2 s2 clauses).get? i) := by
  refine ⟨fun _ _ => rfl, fun _ _ => rfl, fun _ _ => rfl, fun _ _ => rfl,
    ?_, ?_, ?_, ?_, ?_, ?_, ?_, ?_, ?_⟩
  · intro name clause h
    simp [explain_clause, h]
  · intro name clause h1 h2
    simp [explain_clause, h1, h2]
  · intro name clause h1 h2
    simp [explain_clause, h1, h2]
  · intro name clause h
    simp [suggest_alternative, h]
  · intro name clause h1 h2
    simp [suggest_alternative, h1, h2]
  · intro name clause h1 h2
    simp [suggest_alternative, h1, h2]
  · refine ⟨by decide, by decide, by decide, by decide, by decide⟩
  · intro name
    exact ⟨append_ne_of_idx3 otherExplainPre authFailMsg (by decide)
        (by decide) name,
      append_ne_of_idx3 otherExplainPre rateLimitMsg (by decide)
        (by decide) name,
      append_ne_of_idx3 otherExplainPre notCfgExplainMsg (by decide)
        (by decide) name,
      append_ne_of_idx3 otherSuggestPre authFailMsg (by decide)
        (by decide) name,
      append_ne_of_idx3 otherSuggestPre rateLimitMsg (by decide)
        (by decide) name,
      append_ne_of_idx3 otherSuggestPre notCfgSuggestMsg (by decide)
        (by decide) name⟩
  · intro e e2 s s2 clauses i c hget he hs
    unfold buildResults
    rw [buildGo_get? e s clauses 0 i, buildGo_get? e2 s2 clauses 0 i, hget]
    simp [mkClauseRecord, he, hs]

theorem c9_provider_degradation_witness :
    explain_clause true (fun _ => ProviderResult.exn rateToken) [] =
      rateLimitMsg :=
  c9_provider_degradation.2.2.2.2.2.1 rateToken [] (by decide) (by decide)

/-- C10: the configured "low_risk" pattern list is never consulted —
replacing it changes no classification — and `classify_risk` returns
"Low" exactly when no High-risk and no Medium-risk pattern matches; a
clause matching only low-risk patterns such as "mutual agreement" is
classified "Low" purely by default. -/
theorem c10_low_risk_unused :
    (∀ (hi me lo lo2 : List (List Chars)) (clause : Chars),
      assessWith ⟨hi, me, lo⟩ clause = assessWith ⟨hi, me, lo2⟩ clause) ∧
    (∀ clause : Chars, assess_clause_risk clause = "Low" ↔
      (anyMatch defaultRiskPatterns.high_risk (lowerChars clause) = false ∧
       anyMatch defaultRiskPatterns.medium_risk (lowerChars clause)
         = false)) ∧
    assess_clause_risk c10clause = "Low" := by
  refine ⟨fun _ _ _ _ _ => rfl, ?_, by decide⟩
  intro clause
  unfold assess_clause_risk assessWith
  rcases hh : anyMatch defaultRiskPatterns.high_risk (lowerChars clause) with
    _ | _
  · rcases hm : anyMatch defaultRiskPatterns.medium_risk (lowerChars clause)
      with _ | _
    · simp
    · simp
  · simp
